import Mathlib

/-!
Shallow embedding of the Flowise data-export core:
the record transform pipeline (`BaseExporter.processData` with
`filterData`, `selectFields`, `addMetadata`), the CSV and JSON encoders
(`CSVExporter.export` / `convertToCSV`, `JSONExporter.export`) and the
dispatcher (`ExportManager.export` / `exportMultiple`).

JavaScript values are modelled by the inductive `Value`; a JS plain object
is an ordered association list of fields (insertion order is observable in
JS through `Object.keys`, object spread and `JSON.stringify`, so the order
must be part of the model).  File-system effects of `fs.writeFileSync` /
`fs.mkdirSync` are modelled by an `Except String Unit` parameter: `.ok ()`
means every I/O call succeeds, `.error e` means the first I/O call throws
with message `e`.  Timestamps (`new Date().toISOString()`) are threaded in
as explicit `String` parameters, one per call site in the source.
-/

/-- A JSON-ish JavaScript value: null, boolean, number, string, array or
plain object.  JS numbers are modelled as `Int`: every numeric value that
the export pipeline's specification exercises is integral, and `Int`
rendering coincides with JS rendering on integers. -/
inductive Value where
  | vnull : Value
  | vbool : Bool → Value
  | vnum : Int → Value
  | vstr : String → Value
  | varr : List Value → Value
  | vobj : List (String × Value) → Value

/-- A record: a JS plain object, i.e. an ordered association list from
field name to value.  JS objects have no duplicate keys; definitions that
need uniqueness take it as a hypothesis. -/
abbrev JsRecord := List (String × Value)

/-- Field lookup, `item[key]`: the value of the first binding of `key`,
`none` when the object has no such field (JS yields `undefined`). -/
def lookupField (item : JsRecord) (key : String) : Option Value :=
  match item with
  | [] => none
  | (k, v) :: rest => if k = key then some v else lookupField rest key

/-- The `key in item` test of JS. -/
def hasField (item : JsRecord) (key : String) : Bool :=
  match item with
  | [] => false
  | (k, _) :: rest => if k = key then true else hasField rest key

/-- The ordered key list of a JS object, `Object.keys(item)`. -/
def recordKeys (item : JsRecord) : List String :=
  item.map (fun kv => kv.1)

/-- JS object property assignment `r[k] = v` (also the effect of
`{...r, k: v}`): when `k` is already a key its value is replaced in place,
keeping the key's position; otherwise the binding is appended. -/
def assocSet {α : Type} (r : List (String × α)) (k : String) (v : α) :
    List (String × α) :=
  match r with
  | [] => [(k, v)]
  | (k', v') :: rest =>
      if k' = k then (k, v) :: rest else (k', v') :: assocSet rest k v

/-- JS strict equality `===` on `Value`.  On primitives it is structural;
on objects and arrays JS compares references, and in this program the two
sides always come from different allocations (the filter configuration
versus the fetched data), so any comparison involving an object or array
is `false`. -/
def jsStrictEq : Value → Value → Bool
  | Value.vnull, Value.vnull => true
  | Value.vbool a, Value.vbool b => a = b
  | Value.vnum a, Value.vnum b => a = b
  | Value.vstr a, Value.vstr b => a = b
  | _, _ => false

/-- A primitive (non-object, non-array) value: the domain on which JS
strict equality is structural. -/
def Value.isPrimitive : Value → Bool
  | Value.vnull => true
  | Value.vbool _ => true
  | Value.vnum _ => true
  | Value.vstr _ => true
  | Value.varr _ => false
  | Value.vobj _ => false

/-- The export options record (`ExportOptions` in `BaseExporter.ts`); every
field is optional exactly as in the TypeScript interface. -/
structure ExportOptions where
  includeMetadata : Option Bool := none
  customFields : Option (List String) := none
  filterOptions : Option (List (String × Value)) := none

/-- The `data: any[]` argument as it may actually arrive at
`processData`: null, undefined, some non-array value, or an array of
records. -/
inductive JsArg where
  | jnull : JsArg
  | jundefined : JsArg
  | jnonArray : Value → JsArg
  | jarr : List JsRecord → JsArg

/-- Embedding of `BaseExporter.filterData`: keep `item` iff for every
`(key, value)` entry of `filterOptions`, `item[key] !== value` is false.
A missing field reads as `undefined`, which is strictly unequal to every
`Value` (the model has no undefined filter values: filter options arrive
from parsed JSON, which cannot encode undefined). -/
def filterData (data : List JsRecord) (filterOptions : List (String × Value)) :
    List JsRecord :=
  data.filter (fun item =>
    filterOptions.all (fun kv =>
      match lookupField item kv.1 with
      | some x => jsStrictEq x kv.2
      | none => false))

/-- Embedding of `BaseExporter.selectFields`: for each record build a fresh
object, assigning `result[field] = item[field]` for each selected field
present in the record, in selection order. -/
def selectFields (data : List JsRecord) (fields : List String) :
    List JsRecord :=
  data.map (fun item =>
    fields.foldl (fun result field =>
      match lookupField item field with
      | some v => assocSet result field v
      | none => result) [])

/-- Embedding of `BaseExporter.addMetadata`: one timestamp is captured for
the whole call and every record is rebuilt as
`{...item, _exportedAt: timestamp, _exportVersion: '1.0.0'}`. -/
def addMetadata (timestamp : String) (data : List JsRecord) : List JsRecord :=
  data.map (fun item =>
    assocSet (assocSet item "_exportedAt" (Value.vstr timestamp))
      "_exportVersion" (Value.vstr "1.0.0"))

/-- Embedding of `BaseExporter.processData`: returns `[]` for a null,
undefined or non-array argument, then applies filtering (if
`filterOptions` is set), field selection (if `customFields` is set and
non-empty) and metadata stamping (if `includeMetadata` is true).
`timestamp` is the value `new Date().toISOString()` would produce inside
`addMetadata`. -/
def processData (timestamp : String) (data : JsArg)
    (options : Option ExportOptions) : List JsRecord :=
  match data with
  | JsArg.jarr xs =>
      let d1 := match options.bind (fun o => o.filterOptions) with
        | some fo => filterData xs fo
        | none => xs
      let d2 := match options.bind (fun o => o.customFields) with
        | some cf => if cf.length > 0 then selectFields d1 cf else d1
        | none => d1
      if (options.bind (fun o => o.includeMetadata)).getD false then
        addMetadata timestamp d2
      else d2
  | _ => []

/-- One character of `JSON.stringify` string escaping: quote and backslash
are escaped, as are the common control characters. -/
def jsonEscapeChar (c : Char) : String :=
  if c = '\"' then "\\\""
  else if c = '\\' then "\\\\"
  else if c = '\n' then "\\n"
  else if c = '\r' then "\\r"
  else if c = '\t' then "\\t"
  else c.toString

/-- The `JSON.stringify` escaping of a string body. -/
def jsonEscape (s : String) : String :=
  String.join (s.toList.map jsonEscapeChar)

mutual

/-- Compact `JSON.stringify(v)` (no indentation): the single-line
structured-text serialization used for nested values in CSV cells. -/
def jsonStringify : Value → String
  | Value.vnull => "null"
  | Value.vbool true => "true"
  | Value.vbool false => "false"
  | Value.vnum n => toString n
  | Value.vstr s => "\"" ++ jsonEscape s ++ "\""
  | Value.varr xs => "[" ++ jsonStringifyItems xs ++ "]"
  | Value.vobj fs => "\x7b" ++ jsonStringifyEntries fs ++ "\x7d"

/-- Comma-separated compact serialization of array items. -/
def jsonStringifyItems : List Value → String
  | [] => ""
  | [x] => jsonStringify x
  | x :: y :: rest => jsonStringify x ++ "," ++ jsonStringifyItems (y :: rest)

/-- Comma-separated compact serialization of object entries, keys in the
object's own order. -/
def jsonStringifyEntries : List (String × Value) → String
  | [] => ""
  | [(k, v)] => "\"" ++ jsonEscape k ++ "\":" ++ jsonStringify v
  | (k, v) :: e :: rest =>
      "\"" ++ jsonEscape k ++ "\":" ++ jsonStringify v ++ "," ++
        jsonStringifyEntries (e :: rest)

end

/-- The indentation prefix at a given nesting depth for
`JSON.stringify(v, null, 2)`: two spaces per level. -/
def indentAt (depth : Nat) : String :=
  String.join (List.replicate depth "  ")

mutual

/-- Pretty `JSON.stringify(v, null, 2)`: objects and arrays are spread
over lines, each member indented two spaces per depth, with `: ` after
keys; empty containers stay on one line. -/
def jsonStringifyIndent (depth : Nat) : Value → String
  | Value.vnull => "null"
  | Value.vbool true => "true"
  | Value.vbool false => "false"
  | Value.vnum n => toString n
  | Value.vstr s => "\"" ++ jsonEscape s ++ "\""
  | Value.varr [] => "[]"
  | Value.varr (x :: xs) =>
      "[\n" ++ jsonStringifyIndentItems (depth + 1) (x :: xs) ++ "\n" ++
        indentAt depth ++ "]"
  | Value.vobj [] => "\x7b\x7d"
  | Value.vobj (e :: es) =>
      "\x7b\n" ++ jsonStringifyIndentEntries (depth + 1) (e :: es) ++ "\n" ++
        indentAt depth ++ "\x7d"

/-- Indented serialization of array items, joined by `,\n`. -/
def jsonStringifyIndentItems (depth : Nat) : List Value → String
  | [] => ""
  | [x] => indentAt depth ++ jsonStringifyIndent depth x
  | x :: y :: rest =>
      indentAt depth ++ jsonStringifyIndent depth x ++ ",\n" ++
        jsonStringifyIndentItems depth (y :: rest)

/-- Indented serialization of object entries, keys in the object's own
order, joined by `,\n`. -/
def jsonStringifyIndentEntries (depth : Nat) : List (String × Value) → String
  | [] => ""
  | [(k, v)] =>
      indentAt depth ++ "\"" ++ jsonEscape k ++ "\": " ++
        jsonStringifyIndent depth v
  | (k, v) :: e :: rest =>
      indentAt depth ++ "\"" ++ jsonEscape k ++ "\": " ++
        jsonStringifyIndent depth v ++ ",\n" ++
        jsonStringifyIndentEntries depth (e :: rest)

end

/-- The `value.replace(/"/g, '""')` step of the CSV cell rendering. -/
def doubleQuotes (s : String) : String :=
  String.join (s.toList.map (fun c => if c = '\"' then "\"\"" else c.toString))

/-- One CSV cell of `CSVExporter.convertToCSV`: `item[header]` rendered by
type — missing field or null gives an empty cell; an object or array is
`JSON.stringify`-ed, its quotes doubled and the token quote-wrapped; a
string is quote-wrapped with internal quotes doubled; numbers and booleans
are rendered by `Array.prototype.join`'s string coercion, unquoted. -/
def csvCell (item : JsRecord) (header : String) : String :=
  match lookupField item header with
  | none => ""
  | some Value.vnull => ""
  | some (Value.varr xs) =>
      "\"" ++ doubleQuotes (jsonStringify (Value.varr xs)) ++ "\""
  | some (Value.vobj fs) =>
      "\"" ++ doubleQuotes (jsonStringify (Value.vobj fs)) ++ "\""
  | some (Value.vstr s) => "\"" ++ doubleQuotes s ++ "\""
  | some (Value.vnum n) => toString n
  | some (Value.vbool b) => toString b

/-- Embedding of `CSVExporter.convertToCSV`: the header row (field names
comma-joined, unquoted) followed by one comma-joined row per record, all
rows newline-joined. -/
def convertToCSV (data : List JsRecord) (headers : List String) : String :=
  String.intercalate "\n"
    (String.intercalate "," headers ::
      data.map (fun item => String.intercalate "," (headers.map (csvCell item))))

/-- What an encoder's `export` call does as observed by the caller: a
returned boolean, or a raised failure with a message. -/
inductive ExportOutcome where
  | ret : Bool → ExportOutcome
  | thrown : String → ExportOutcome

/-- Embedding of `CSVExporter.export`.  The whole body runs inside
`try ... catch`, and the catch clause logs and returns `false`, so an I/O
fault (`io = .error e`, covering `fs.mkdirSync` and `fs.writeFileSync`)
yields `(.ret false, none)` rather than a thrown outcome.  The second
component is the content written to `outputPath`, `none` when no file is
produced.  Headers are `Object.keys(processedData[0])`. -/
def csvExport (io : Except String Unit) (timestamp : String) (data : JsArg)
    (outputPath : String) (options : Option ExportOptions) :
    ExportOutcome × Option String :=
  let processedData := processData timestamp data options
  if processedData.length = 0 then (ExportOutcome.ret false, none)
  else
    let headers := recordKeys (processedData.headD [])
    let csvContent := convertToCSV processedData headers
    match io with
    | Except.error _ => (ExportOutcome.ret false, none)
    | Except.ok _ => (ExportOutcome.ret true, some csvContent)

/-- The envelope object `JSONExporter.export` builds around the processed
collection: a `metadata` block (export timestamp, count of the transformed
collection, format-version marker) plus the `data` field holding the full
transformed collection. -/
def jsonEnvelope (exportTimestamp : String) (processedData : List JsRecord) :
    Value :=
  Value.vobj
    [("metadata", Value.vobj
        [("exportedAt", Value.vstr exportTimestamp),
         ("recordCount", Value.vnum (processedData.length : Int)),
         ("version", Value.vstr "1.0.0")]),
     ("data", Value.varr (processedData.map Value.vobj))]

/-- Embedding of `JSONExporter.export`.  Like the CSV variant, the body is
one `try ... catch` whose catch clause returns `false`.  The source calls
`new Date().toISOString()` twice — once inside `addMetadata` (the
`pipelineTimestamp`) and once for the envelope's `exportedAt` (the
`envelopeTimestamp`) — so the two are separate parameters.  The written
content is `JSON.stringify(exportData, null, 2)`. -/
def jsonExport (io : Except String Unit)
    (pipelineTimestamp envelopeTimestamp : String) (data : JsArg)
    (outputPath : String) (options : Option ExportOptions) :
    ExportOutcome × Option String :=
  let processedData := processData pipelineTimestamp data options
  if processedData.length = 0 then (ExportOutcome.ret false, none)
  else
    let exportData := jsonEnvelope envelopeTimestamp processedData
    match io with
    | Except.error _ => (ExportOutcome.ret false, none)
    | Except.ok _ =>
        (ExportOutcome.ret true, some (jsonStringifyIndent 0 exportData))

/-- An encoder as the dispatcher sees it: `export(data, outputPath,
options)` observed as an `ExportOutcome` (a returned boolean or a raised
failure).  `ExportManager` only consumes encoders through this contract. -/
abbrev Encoder := JsArg → String → Option ExportOptions → ExportOutcome

/-- The dispatcher's format → encoder registry
(`Map<ExportFormat, BaseExporter>`); formats are their string identifiers
(the TypeScript enum's runtime values `csv`, `json`, `pdf`). -/
abbrev Registry := List (String × Encoder)

/-- `Map.get` over the registry association list. -/
def regGet (reg : Registry) (format : String) : Option Encoder :=
  match reg with
  | [] => none
  | (k, e) :: rest => if k = format then some e else regGet rest format

/-- The input-collection guard of `ExportManager.export`:
`!data || !Array.isArray(data) || data.length === 0`. -/
def jsArgInvalid : JsArg → Bool
  | JsArg.jarr xs => xs.length == 0
  | _ => true

/-- Embedding of `ExportManager.export`: the collection guard runs first,
then the registry lookup, then the delegated call inside `try ... catch`
— a thrown encoder fault is logged and converted to `false`. -/
def managerExport (reg : Registry) (data : JsArg) (format outputPath : String)
    (options : Option ExportOptions) : Bool :=
  if jsArgInvalid data then false
  else
    match regGet reg format with
    | none => false
    | some exporter =>
        match exporter data outputPath options with
        | ExportOutcome.ret b => b
        | ExportOutcome.thrown _ => false

/-- Embedding of `ExportManager.exportMultiple`: a sequential loop over
the requested formats, each calling `export` with target
`` `${basePath}.${format}` `` and storing the boolean into the results
object. -/
def exportMultiple (reg : Registry) (data : JsArg) (basePath : String)
    (formats : List String) (options : Option ExportOptions) :
    List (String × Bool) :=
  formats.foldl (fun results format =>
    assocSet results format
      (managerExport reg data format (basePath ++ "." ++ format) options)) []

theorem lookupField_assocSet_self (r : JsRecord) (k : String) (v : Value) :
    lookupField (assocSet r k v) k = some v := by
  induction r with
  | nil => simp [assocSet, lookupField]
  | cons hd tl ih =>
      obtain ⟨k', v'⟩ := hd
      by_cases h : k' = k
      · simp [assocSet, h, lookupField]
      · simp [assocSet, h, lookupField, ih]

theorem lookupField_assocSet_ne (r : JsRecord) (k k' : String) (v : Value)
    (h : k' ≠ k) : lookupField (assocSet r k v) k' = lookupField r k' := by
  induction r with
  | nil => simp [assocSet, lookupField, Ne.symm h]
  | cons hd tl ih =>
      obtain ⟨k₀, v₀⟩ := hd
      by_cases h₀ : k₀ = k
      · subst h₀
        simp [assocSet, lookupField, Ne.symm h]
      · by_cases h₁ : k₀ = k'
        · subst h₁
          simp [assocSet, h₀, lookupField]
        · simp [assocSet, h₀, lookupField, h₁, ih]

theorem hasField_eq_isSome (r : JsRecord) (k : String) :
    hasField r k = (lookupField r k).isSome := by
  induction r with
  | nil => simp [hasField, lookupField]
  | cons hd tl ih =>
      obtain ⟨k₀, v₀⟩ := hd
      by_cases h : k₀ = k
      · simp [hasField, lookupField, h]
      · simp [hasField, lookupField, h, ih]

theorem hasField_iff_mem (r : JsRecord) (k : String) :
    hasField r k = true ↔ k ∈ recordKeys r := by
  induction r with
  | nil => simp [hasField, recordKeys]
  | cons hd tl ih =>
      obtain ⟨k₀, v₀⟩ := hd
      by_cases h : k₀ = k
      · simp [hasField, recordKeys, h]
      · simp [hasField, recordKeys, h, Ne.symm h, ih]

theorem recordKeys_assocSet (r : JsRecord) (k : String) (v : Value) :
    recordKeys (assocSet r k v) =
      if hasField r k then recordKeys r else recordKeys r ++ [k] := by
  induction r with
  | nil => simp [assocSet, hasField, recordKeys]
  | cons hd tl ih =>
      obtain ⟨k₀, v₀⟩ := hd
      by_cases h : k₀ = k
      · simp [assocSet, hasField, recordKeys, h]
      · by_cases h₂ : hasField tl k
        · simp [assocSet, hasField, recordKeys, h, h₂] at ih ⊢
          exact ih
        · simp [assocSet, hasField, recordKeys, h, h₂] at ih ⊢
          exact ih

theorem hasField_assocSet (r : JsRecord) (k k' : String) (v : Value) :
    hasField (assocSet r k v) k' = (decide (k' = k) || hasField r k') := by
  by_cases h : k' = k
  · subst h
    rw [hasField_eq_isSome, lookupField_assocSet_self]
    simp
  · rw [hasField_eq_isSome, lookupField_assocSet_ne r k k' v h,
      ← hasField_eq_isSome]
    simp [h]

theorem assocSet_not_mem {β : Type} (r : List (String × β)) (k : String) (v : β)
    (h : k ∉ r.map Prod.fst) : assocSet r k v = r ++ [(k, v)] := by
  induction r with
  | nil => simp [assocSet]
  | cons hd tl ih =>
      obtain ⟨k₀, v₀⟩ := hd
      simp only [List.map_cons, List.mem_cons] at h
      push_neg at h
      simp [assocSet, Ne.symm h.1, ih h.2]

theorem jsStrictEq_iff (x v : Value) (hv : v.isPrimitive = true) :
    jsStrictEq x v = true ↔ x = v := by
  cases v <;> cases x <;>
    simp_all [jsStrictEq, Value.isPrimitive]

/-- C10: the transform pipeline entry point is total on malformed input —
for a null, undefined, or non-array `data` argument, `processData` returns
the empty collection (it never raises). -/
theorem processData_total_on_malformed (ts : String)
    (options : Option ExportOptions) :
    processData ts JsArg.jnull options = []
  ∧ processData ts JsArg.jundefined options = []
  ∧ ∀ v : Value, processData ts (JsArg.jnonArray v) options = [] :=
  ⟨rfl, rfl, fun _ => rfl⟩

/-- Instance of `processData_total_on_malformed` at a concrete non-array
input. -/
theorem processData_total_on_malformed_witness :
    processData "2024-01-01T00:00:00.000Z" JsArg.jnull none = []
  ∧ processData "2024-01-01T00:00:00.000Z"
      (JsArg.jnonArray (Value.vstr "oops")) none = [] :=
  ⟨(processData_total_on_malformed "2024-01-01T00:00:00.000Z" none).1,
   (processData_total_on_malformed "2024-01-01T00:00:00.000Z" none).2.2
      (Value.vstr "oops")⟩

/-- C5: with no filter, no field selection and metadata disabled, the
transform pipeline is the identity on the collection, record for record
and in order. -/
theorem processData_identity (ts : String) (xs : List JsRecord)
    (options : Option ExportOptions)
    (hf : options.bind (fun o => o.filterOptions) = none)
    (hc : options.bind (fun o => o.customFields) = none)
    (hm : (options.bind (fun o => o.includeMetadata)).getD false = false) :
    processData ts (JsArg.jarr xs) options = xs := by
  simp [processData, hf, hc, hm]

/-- Instance of `processData_identity` with absent options on a concrete
two-record collection. -/
theorem processData_identity_witness :
    processData "2024-01-01T00:00:00.000Z"
      (JsArg.jarr [[("id", Value.vnum 1)], [("id", Value.vnum 2)]]) none =
      [[("id", Value.vnum 1)], [("id", Value.vnum 2)]] :=
  processData_identity "2024-01-01T00:00:00.000Z"
    [[("id", Value.vnum 1)], [("id", Value.vnum 2)]] none rfl rfl rfl

/-- C2: with every filter value primitive (the domain where JS strict
equality is structural), a record is kept by `filterData` iff its value at
each filtered field is exactly the filter's value (a missing field drops
the record); the output is never longer than the input; and every kept
record satisfies each filter pair. -/
theorem filterData_keeps_iff (data : List JsRecord)
    (fo : List (String × Value))
    (hprim : ∀ kv ∈ fo, Value.isPrimitive kv.2 = true) :
    (∀ item ∈ data, (item ∈ filterData data fo ↔
        ∀ kv ∈ fo, lookupField item kv.1 = some kv.2))
  ∧ (filterData data fo).length ≤ data.length
  ∧ (∀ item ∈ filterData data fo, ∀ kv ∈ fo,
      lookupField item kv.1 = some kv.2) := by
  have hpred : ∀ item : JsRecord,
      (fo.all (fun kv =>
        match lookupField item kv.1 with
        | some x => jsStrictEq x kv.2
        | none => false) = true) ↔
      (∀ kv ∈ fo, lookupField item kv.1 = some kv.2) := by
    intro item
    rw [List.all_eq_true]
    constructor
    · intro hall kv hkv
      have hmatch := hall kv hkv
      cases hx : lookupField item kv.1 with
      | none => rw [hx] at hmatch; simp at hmatch
      | some x =>
          rw [hx] at hmatch
          simp only at hmatch
          rw [jsStrictEq_iff x kv.2 (hprim kv hkv)] at hmatch
          rw [hmatch]
    · intro hall kv hkv
      rw [hall kv hkv]
      simp only
      rw [jsStrictEq_iff kv.2 kv.2 (hprim kv hkv)]
  refine ⟨fun item hitem => ?_, ?_, fun item hitem kv hkv => ?_⟩
  · rw [filterData, List.mem_filter]
    constructor
    · intro h
      exact (hpred item).mp h.2
    · intro h
      exact ⟨hitem, (hpred item).mpr h⟩
  · exact List.length_filter_le _ data
  · rw [filterData, List.mem_filter] at hitem
    exact (hpred item).mp hitem.2 kv hkv

/-- Instance of `filterData_keeps_iff` at the spec's Scenario C: filtering
on `status = "active"` keeps exactly the matching record. -/
theorem filterData_keeps_iff_witness :
    (filterData
        [[("id", Value.vnum 1), ("status", Value.vstr "active")],
         [("id", Value.vnum 2), ("status", Value.vstr "inactive")]]
        [("status", Value.vstr "active")]).length ≤ 2 ∧
    ∀ item ∈ filterData
        [[("id", Value.vnum 1), ("status", Value.vstr "active")],
         [("id", Value.vnum 2), ("status", Value.vstr "inactive")]]
        [("status", Value.vstr "active")],
      lookupField item "status" = some (Value.vstr "active") := by
  have h := filterData_keeps_iff
    [[("id", Value.vnum 1), ("status", Value.vstr "active")],
     [("id", Value.vnum 2), ("status", Value.vstr "inactive")]]
    [("status", Value.vstr "active")]
    (by intro kv hkv; simp at hkv; rw [hkv]; rfl)
  exact ⟨h.2.1, fun item hitem =>
    h.2.2 item hitem ("status", Value.vstr "active") (by simp)⟩

theorem selectFold_eq_filterMap (item : JsRecord) (fields : List String) :
    ∀ acc : JsRecord, fields.Nodup → (∀ f ∈ fields, f ∉ recordKeys acc) →
      fields.foldl (fun result field =>
        match lookupField item field with
        | some v => assocSet result field v
        | none => result) acc =
      acc ++ fields.filterMap
        (fun f => (lookupField item f).map (fun v => (f, v))) := by
  induction fields with
  | nil => intro acc _ _; simp
  | cons f fs ih =>
      intro acc hnd hdisj
      obtain ⟨hf_fs, hfs_nd⟩ := List.nodup_cons.mp hnd
      cases hx : lookupField item f with
      | none =>
          simp only [List.foldl_cons, List.filterMap_cons, hx]
          exact ih acc hfs_nd
            (fun g hg => hdisj g (List.mem_cons_of_mem f hg))
      | some v =>
          have hfacc : f ∉ recordKeys acc := hdisj f (List.mem_cons_self f fs)
          have hset : assocSet acc f v = acc ++ [(f, v)] :=
            assocSet_not_mem acc f v hfacc
          simp only [List.foldl_cons, List.filterMap_cons, hx, Option.map_some,
            hset]
          rw [ih (acc ++ [(f, v)]) hfs_nd ?_]
          · simp
          · intro g hg
            have hg_ne : g ≠ f := fun hh => hf_fs (hh ▸ hg)
            have hg_acc : g ∉ recordKeys acc :=
              hdisj g (List.mem_cons_of_mem f hg)
            intro hg_mem
            rw [recordKeys, List.map_append] at hg_mem
            rcases List.mem_append.mp hg_mem with h1 | h1
            · exact hg_acc h1
            · simp at h1
              exact hg_ne h1

theorem recordKeys_cons (k : String) (v : Value) (r : JsRecord) :
    recordKeys ((k, v) :: r) = k :: recordKeys r := rfl

theorem recordKeys_filterMap_lookup (item : JsRecord) (fields : List String) :
    recordKeys (fields.filterMap
        (fun f => (lookupField item f).map (fun v => (f, v)))) =
      fields.filter (fun f => hasField item f) := by
  have hsame : (fun f => hasField item f) =
      (fun f => (lookupField item f).isSome) := by
    funext f
    exact hasField_eq_isSome item f
  rw [hsame]
  induction fields with
  | nil => rfl
  | cons f fs ih =>
      cases hx : lookupField item f with
      | none => simp [List.filterMap_cons, List.filter_cons, hx, ih]
      | some v =>
          simp [List.filterMap_cons, List.filter_cons, hx, recordKeys_cons, ih]

/-- C3: for a non-empty, duplicate-free field selection, each record is
projected to exactly the selected fields it possesses, in selection order
— absent fields are omitted — so every output record's field set is
contained in the selection and its field order follows the selection's
order. -/
theorem selectFields_project (data : List JsRecord) (S : List String)
    (hS : S ≠ []) (hnodup : S.Nodup) :
    (selectFields data S).length = data.length
  ∧ (∀ i item, data.get? i = some item →
      (selectFields data S).get? i =
        some (S.filterMap (fun f => (lookupField item f).map (fun v => (f, v)))))
  ∧ (∀ item : JsRecord,
      recordKeys (S.filterMap
          (fun f => (lookupField item f).map (fun v => (f, v)))) =
        S.filter (fun f => hasField item f))
  ∧ (∀ r ∈ selectFields data S, ∀ k ∈ recordKeys r, k ∈ S) := by
  have hfold : ∀ item : JsRecord,
      S.foldl (fun result field =>
        match lookupField item field with
        | some v => assocSet result field v
        | none => result) [] =
      S.filterMap (fun f => (lookupField item f).map (fun v => (f, v))) := by
    intro item
    have h := selectFold_eq_filterMap item S [] hnodup (by simp [recordKeys])
    simpa using h
  refine ⟨by simp [selectFields], fun i item hget => ?_, fun item =>
    recordKeys_filterMap_lookup item S, fun r hr k hk => ?_⟩
  · rw [selectFields, List.get?_map, hget, Option.map_some', hfold item]
  · rw [selectFields, List.mem_map] at hr
    obtain ⟨item, _, hitem⟩ := hr
    rw [← hitem, hfold item, recordKeys_filterMap_lookup item S] at hk
    exact List.mem_of_mem_filter hk

/-- Instance of `selectFields_project`: selecting `[name, id]` from a
record having `id`, `name`, `extra` keeps only `name` and `id`, in the
selection's order. -/
theorem selectFields_project_witness :
    (selectFields
        [[("id", Value.vnum 1), ("name", Value.vstr "Alice"),
          ("extra", Value.vbool true)]] ["name", "id"]).get? 0 =
      some [("name", Value.vstr "Alice"), ("id", Value.vnum 1)] := by
  have h := selectFields_project
    [[("id", Value.vnum 1), ("name", Value.vstr "Alice"),
      ("extra", Value.vbool true)]] ["name", "id"]
    (by simp) (by simp)
  rw [h.2.1 0 [("id", Value.vnum 1), ("name", Value.vstr "Alice"),
      ("extra", Value.vbool true)] rfl]
  rfl

/-- C4: `addMetadata` maps each record to itself plus the two reserved
fields `_exportedAt` (the single timestamp captured for the call, hence
literally equal across all records) and `_exportVersion` (the fixed
marker `1.0.0`); pre-existing fields of those names are overwritten, all
other fields are untouched, and exactly the missing reserved keys are
appended. -/
theorem addMetadata_stamps (ts : String) (data : List JsRecord) :
    (addMetadata ts data).length = data.length
  ∧ ∀ i item, data.get? i = some item →
      ∃ r, (addMetadata ts data).get? i = some r
        ∧ lookupField r "_exportedAt" = some (Value.vstr ts)
        ∧ lookupField r "_exportVersion" = some (Value.vstr "1.0.0")
        ∧ (∀ k, k ≠ "_exportedAt" → k ≠ "_exportVersion" →
            lookupField r k = lookupField item k)
        ∧ recordKeys r = recordKeys item ++
            (["_exportedAt", "_exportVersion"].filter
              (fun k => !hasField item k)) := by
  have hne_va : ("_exportVersion" : String) ≠ "_exportedAt" := by decide
  have hne_av : ("_exportedAt" : String) ≠ "_exportVersion" := by decide
  refine ⟨by simp [addMetadata], fun i item hget => ?_⟩
  refine ⟨assocSet (assocSet item "_exportedAt" (Value.vstr ts))
      "_exportVersion" (Value.vstr "1.0.0"), ?_, ?_, ?_, ?_, ?_⟩
  · rw [addMetadata, List.get?_map, hget, Option.map_some']
  · rw [lookupField_assocSet_ne _ _ _ _ hne_av, lookupField_assocSet_self]
  · exact lookupField_assocSet_self _ _ _
  · intro k hk1 hk2
    rw [lookupField_assocSet_ne _ _ _ _ hk2, lookupField_assocSet_ne _ _ _ _ hk1]
  · cases h1 : hasField item "_exportedAt" <;>
      cases h2 : hasField item "_exportVersion" <;>
      simp [recordKeys_assocSet, hasField_assocSet, h1, h2, hne_va,
        List.filter_cons]

/-- Instance of `addMetadata_stamps`: a record that already carries an old
`_exportedAt` gets it overwritten with the call's timestamp and gains the
version marker. -/
theorem addMetadata_stamps_witness :
    ∃ r, (addMetadata "2024-01-01T00:00:00.000Z"
        [[("id", Value.vnum 1),
          ("_exportedAt", Value.vstr "1999-01-01T00:00:00.000Z")]]).get? 0 =
      some r
    ∧ lookupField r "_exportedAt" =
        some (Value.vstr "2024-01-01T00:00:00.000Z")
    ∧ lookupField r "_exportVersion" = some (Value.vstr "1.0.0") := by
  obtain ⟨r, h1, h2, h3, _, _⟩ :=
    (addMetadata_stamps "2024-01-01T00:00:00.000Z"
      [[("id", Value.vnum 1),
        ("_exportedAt", Value.vstr "1999-01-01T00:00:00.000Z")]]).2 0
      [("id", Value.vnum 1),
       ("_exportedAt", Value.vstr "1999-01-01T00:00:00.000Z")] rfl
  exact ⟨r, h1, h2, h3⟩

/-- C1 counterexample: with a non-empty transformed collection and a
failing write, both encoder variants return the boolean `false` — the
same signal as an empty collection — instead of raising; so `false` does
not occur exactly when the transformed collection is empty, and an I/O
fault is not signalled as a thrown failure. -/
theorem encoder_fault_counterexample :
    (csvExport (Except.error "EACCES: permission denied")
        "2024-01-01T00:00:00.000Z"
        (JsArg.jarr [[("id", Value.vnum 1)]]) "/tmp/out.csv" none).1 =
      ExportOutcome.ret false
  ∧ processData "2024-01-01T00:00:00.000Z"
      (JsArg.jarr [[("id", Value.vnum 1)]]) none ≠ []
  ∧ (jsonExport (Except.error "EACCES: permission denied")
        "2024-01-01T00:00:00.000Z" "2024-01-01T00:00:00.000Z"
        (JsArg.jarr [[("id", Value.vnum 1)]]) "/tmp/out.json" none).1 =
      ExportOutcome.ret false := by
  refine ⟨rfl, ?_, rfl⟩
  simp [processData]

/-- C1 (amended): for both encoder variants, `export` never raises past
the encoder; it returns `true` iff the transformed collection is
non-empty and writing succeeds, and returns `false` iff the transformed
collection is empty or an I/O fault occurred (the fault is caught inside
the encoder, logged, and converted to `false`). -/
theorem encoder_false_on_empty_or_fault (io : Except String Unit)
    (ts tsEnv : String) (data : JsArg) (path : String)
    (options : Option ExportOptions) :
    (∀ m, (csvExport io ts data path options).1 ≠ ExportOutcome.thrown m)
  ∧ (∀ m, (jsonExport io ts tsEnv data path options).1 ≠ ExportOutcome.thrown m)
  ∧ ((csvExport io ts data path options).1 = ExportOutcome.ret true ↔
      processData ts data options ≠ [] ∧ io = Except.ok ())
  ∧ ((csvExport io ts data path options).1 = ExportOutcome.ret false ↔
      processData ts data options = [] ∨ ∃ e, io = Except.error e)
  ∧ ((jsonExport io ts tsEnv data path options).1 = ExportOutcome.ret true ↔
      processData ts data options ≠ [] ∧ io = Except.ok ())
  ∧ ((jsonExport io ts tsEnv data path options).1 = ExportOutcome.ret false ↔
      processData ts data options = [] ∨ ∃ e, io = Except.error e) := by
  by_cases h : processData ts data options = []
  · have hlen : (processData ts data options).length = 0 := by simp [h]
    cases io with
    | ok u =>
        cases u
        simp [csvExport, jsonExport, hlen, h]
    | error e =>
        simp [csvExport, jsonExport, hlen, h]
  · have hlen : ¬(processData ts data options).length = 0 := by
      simpa [List.length_eq_zero] using h
    cases io with
    | ok u =>
        cases u
        simp [csvExport, jsonExport, hlen, h]
    | error e =>
        simp [csvExport, jsonExport, hlen, h]

/-- Instance of `encoder_false_on_empty_or_fault`: a successful write of a
one-record collection returns `true`, and a failing write returns
`false`. -/
theorem encoder_false_on_empty_or_fault_witness :
    (csvExport (Except.ok ()) "2024-01-01T00:00:00.000Z"
        (JsArg.jarr [[("id", Value.vnum 1)]]) "/tmp/o.csv" none).1 =
      ExportOutcome.ret true
  ∧ (jsonExport (Except.error "ENOSPC") "2024-01-01T00:00:00.000Z"
        "2024-01-01T00:00:00.000Z"
        (JsArg.jarr [[("id", Value.vnum 1)]]) "/tmp/o.json" none).1 =
      ExportOutcome.ret false := by
  constructor
  · exact (encoder_false_on_empty_or_fault (Except.ok ())
      "2024-01-01T00:00:00.000Z" "2024-01-01T00:00:00.000Z"
      (JsArg.jarr [[("id", Value.vnum 1)]]) "/tmp/o.csv" none).2.2.1.mpr
      ⟨by simp [processData], rfl⟩
  · exact (encoder_false_on_empty_or_fault (Except.error "ENOSPC")
      "2024-01-01T00:00:00.000Z" "2024-01-01T00:00:00.000Z"
      (JsArg.jarr [[("id", Value.vnum 1)]]) "/tmp/o.json" none).2.2.2.2.2.mpr
      (Or.inr ⟨"ENOSPC", rfl⟩)

/-- C6: the dispatcher returns `false` for an invalid (null, non-array or
empty) input collection regardless of the registry — so no encoder is
consulted — and for an unregistered format; otherwise it returns the
registered encoder's boolean result, and a fault thrown by the encoder is
caught and converted to `false`, so no exception escapes the dispatch
boundary. -/
theorem managerExport_dispatch (reg : Registry) (data : JsArg)
    (format path : String) (options : Option ExportOptions) :
    (jsArgInvalid data = true →
      managerExport reg data format path options = false)
  ∧ (regGet reg format = none →
      managerExport reg data format path options = false)
  ∧ (∀ enc, regGet reg format = some enc → jsArgInvalid data = false →
      (∀ b, enc data path options = ExportOutcome.ret b →
          managerExport reg data format path options = b)
    ∧ (∀ m, enc data path options = ExportOutcome.thrown m →
          managerExport reg data format path options = false)) := by
  refine ⟨fun h => by simp [managerExport, h], fun h => ?_,
    fun enc henc hvalid =>
      ⟨fun b hb => by simp [managerExport, hvalid, henc, hb],
       fun m hm => by simp [managerExport, hvalid, henc, hm]⟩⟩
  by_cases hv : jsArgInvalid data <;> simp [managerExport, hv, h]

/-- Instance of `managerExport_dispatch`: an empty input collection gives
`false` even with a registered encoder; a throwing encoder is downgraded
to `false`; a returning encoder's boolean propagates. -/
theorem managerExport_dispatch_witness :
    managerExport [("csv", fun _ _ _ => ExportOutcome.ret true)]
      (JsArg.jarr []) "csv" "/tmp/o.csv" none = false
  ∧ managerExport [("csv", fun _ _ _ => ExportOutcome.ret true)]
      (JsArg.jarr [[("id", Value.vnum 1)]]) "csv" "/tmp/o.csv" none = true
  ∧ managerExport [("csv", fun _ _ _ => ExportOutcome.thrown "boom")]
      (JsArg.jarr [[("id", Value.vnum 1)]]) "csv" "/tmp/o.csv" none = false := by
  refine ⟨?_, ?_, ?_⟩
  · exact (managerExport_dispatch
      [("csv", fun _ _ _ => ExportOutcome.ret true)]
      (JsArg.jarr []) "csv" "/tmp/o.csv" none).1 rfl
  · exact ((managerExport_dispatch
      [("csv", fun _ _ _ => ExportOutcome.ret true)]
      (JsArg.jarr [[("id", Value.vnum 1)]]) "csv" "/tmp/o.csv" none).2.2
      _ rfl rfl).1 true rfl
  · exact ((managerExport_dispatch
      [("csv", fun _ _ _ => ExportOutcome.thrown "boom")]
      (JsArg.jarr [[("id", Value.vnum 1)]]) "csv" "/tmp/o.csv" none).2.2
      _ rfl rfl).2 "boom" rfl

theorem foldl_assocSet_eq_map {β : Type} (g : String → β) (ks : List String) :
    ∀ acc : List (String × β), ks.Nodup →
      (∀ k ∈ ks, k ∉ acc.map Prod.fst) →
      ks.foldl (fun r k => assocSet r k (g k)) acc =
        acc ++ ks.map (fun k => (k, g k)) := by
  induction ks with
  | nil => intro acc _ _; simp
  | cons k ks ih =>
      intro acc hnd hdisj
      obtain ⟨hk_ks, hks_nd⟩ := List.nodup_cons.mp hnd
      have hkacc : k ∉ acc.map Prod.fst := hdisj k (List.mem_cons_self k ks)
      rw [List.foldl_cons, assocSet_not_mem acc k (g k) hkacc,
        ih (acc ++ [(k, g k)]) hks_nd ?_]
      · simp
      · intro k' hk'
        rw [List.map_append]
        intro hmem
        rcases List.mem_append.mp hmem with h1 | h1
        · exact hdisj k' (List.mem_cons_of_mem k hk') h1
        · simp at h1
          exact hk_ks (h1 ▸ hk')

/-- C7: `exportMultiple` over duplicate-free kinds produces exactly one
entry per requested kind, in the caller's order, each computed by one
`export` call with target `basePath ++ "." ++ kind`; since each entry is
a function of its own kind alone, a `false` for one kind (registered or
not) cannot affect the others. -/
theorem exportMultiple_fanout (reg : Registry) (data : JsArg)
    (basePath : String) (formats : List String)
    (options : Option ExportOptions) (hnodup : formats.Nodup) :
    exportMultiple reg data basePath formats options =
      formats.map (fun format =>
        (format, managerExport reg data format (basePath ++ "." ++ format)
          options)) := by
  rw [exportMultiple]
  have h := foldl_assocSet_eq_map
    (fun format =>
      managerExport reg data format (basePath ++ "." ++ format) options)
    formats [] hnodup (by simp)
  simpa using h

/-- Instance of `exportMultiple_fanout` at the spec's Scenario D: kinds
`[csv, pdf]` with only `csv` registered give `true` for `csv` and `false`
for `pdf`, independently. -/
theorem exportMultiple_fanout_witness :
    exportMultiple [("csv", fun _ _ _ => ExportOutcome.ret true)]
      (JsArg.jarr [[("id", Value.vnum 1)]]) "/tmp/base" ["csv", "pdf"]
      none = [("csv", true), ("pdf", false)] := by
  rw [exportMultiple_fanout
    [("csv", fun _ _ _ => ExportOutcome.ret true)]
    (JsArg.jarr [[("id", Value.vnum 1)]]) "/tmp/base" ["csv", "pdf"] none
    (by decide)]
  rfl

/-- C8: on a non-empty transformed collection with writable output, the
tabular encoder succeeds and writes exactly: a header row made of the
first record's own field names comma-joined unquoted, then one row per
record, newline-joined, with each cell rendered by type — missing/null
empty, object/array a quote-wrapped compact JSON token with quotes
doubled, string quote-wrapped with quotes doubled, number/boolean the
bare literal text. -/
theorem csvExport_serialization (ts : String) (data : JsArg) (path : String)
    (options : Option ExportOptions)
    (hne : processData ts data options ≠ []) :
    (csvExport (Except.ok ()) ts data path options).1 = ExportOutcome.ret true
  ∧ (csvExport (Except.ok ()) ts data path options).2 =
      some (String.intercalate "\n"
        (String.intercalate ","
            (recordKeys ((processData ts data options).headD [])) ::
          (processData ts data options).map (fun item =>
            String.intercalate ","
              ((recordKeys ((processData ts data options).headD [])).map
                (csvCell item)))))
  ∧ (∀ item f, lookupField item f = none → csvCell item f = "")
  ∧ (∀ item f, lookupField item f = some Value.vnull → csvCell item f = "")
  ∧ (∀ item f s, lookupField item f = some (Value.vstr s) →
      csvCell item f = "\"" ++ doubleQuotes s ++ "\"")
  ∧ (∀ item f n, lookupField item f = some (Value.vnum n) →
      csvCell item f = toString n)
  ∧ (∀ item f b, lookupField item f = some (Value.vbool b) →
      csvCell item f = toString b)
  ∧ (∀ item f fs, lookupField item f = some (Value.vobj fs) →
      csvCell item f =
        "\"" ++ doubleQuotes (jsonStringify (Value.vobj fs)) ++ "\"")
  ∧ (∀ item f xs, lookupField item f = some (Value.varr xs) →
      csvCell item f =
        "\"" ++ doubleQuotes (jsonStringify (Value.varr xs)) ++ "\"") := by
  have hlen : ¬(processData ts data options).length = 0 := by
    simpa [List.length_eq_zero] using hne
  refine ⟨by simp [csvExport, hlen], by simp [csvExport, hlen, convertToCSV],
    fun item f h => by simp [csvCell, h],
    fun item f h => by simp [csvCell, h],
    fun item f s h => by simp [csvCell, h],
    fun item f n h => by simp [csvCell, h],
    fun item f b h => by simp [csvCell, h],
    fun item f fs h => by simp [csvCell, h],
    fun item f xs h => by simp [csvCell, h]⟩

/-- Instance of `csvExport_serialization` at the spec's Scenario A:
two records with `id` and `name` produce header `id,name` and rows
`1,"Alice"` and `2,"Bob"`. -/
theorem csvExport_serialization_witness :
    (csvExport (Except.ok ()) "2024-01-01T00:00:00.000Z"
        (JsArg.jarr [[("id", Value.vnum 1), ("name", Value.vstr "Alice")],
                     [("id", Value.vnum 2), ("name", Value.vstr "Bob")]])
        "/tmp/o.csv" none).2 =
      some "id,name\n1,\"Alice\"\n2,\"Bob\"" := by
  have h := csvExport_serialization "2024-01-01T00:00:00.000Z"
    (JsArg.jarr [[("id", Value.vnum 1), ("name", Value.vstr "Alice")],
                 [("id", Value.vnum 2), ("name", Value.vstr "Bob")]])
    "/tmp/o.csv" none (by simp [processData])
  rw [h.2.1]
  rfl

/-- C9: on a non-empty transformed collection with writable output, the
structured encoder succeeds and writes the two-space-indented JSON
serialization of an envelope whose `metadata` block holds the export
timestamp, the record count of the transformed collection and the
`1.0.0` version marker, and whose `data` field holds the full transformed
collection with each record's own field order preserved. -/
theorem jsonExport_envelope (ts tsEnv : String) (data : JsArg)
    (path : String) (options : Option ExportOptions)
    (hne : processData ts data options ≠ []) :
    (jsonExport (Except.ok ()) ts tsEnv data path options).1 =
      ExportOutcome.ret true
  ∧ (jsonExport (Except.ok ()) ts tsEnv data path options).2 =
      some (jsonStringifyIndent 0 (Value.vobj
        [("metadata", Value.vobj
            [("exportedAt", Value.vstr tsEnv),
             ("recordCount",
               Value.vnum ((processData ts data options).length : Int)),
             ("version", Value.vstr "1.0.0")]),
         ("data",
           Value.varr ((processData ts data options).map Value.vobj))])) := by
  have hlen : ¬(processData ts data options).length = 0 := by
    simpa [List.length_eq_zero] using hne
  constructor <;> simp [jsonExport, hlen, jsonEnvelope]

/-- Instance of `jsonExport_envelope` on a one-record collection: the
envelope carries `recordCount` 1, the given timestamp, the version marker
and the record itself under `data`. -/
theorem jsonExport_envelope_witness :
    (jsonExport (Except.ok ()) "2024-01-01T00:00:00.000Z"
        "2024-01-02T00:00:00.000Z"
        (JsArg.jarr [[("id", Value.vnum 1)]]) "/tmp/o.json" none).2 =
      some (jsonStringifyIndent 0 (Value.vobj
        [("metadata", Value.vobj
            [("exportedAt", Value.vstr "2024-01-02T00:00:00.000Z"),
             ("recordCount", Value.vnum 1),
             ("version", Value.vstr "1.0.0")]),
         ("data", Value.varr [Value.vobj [("id", Value.vnum 1)]])])) := by
  have h := jsonExport_envelope "2024-01-01T00:00:00.000Z"
    "2024-01-02T00:00:00.000Z" (JsArg.jarr [[("id", Value.vnum 1)]])
    "/tmp/o.json" none (by simp [processData])
  rw [h.2]
  rfl
